import Mathlib

/-!
Verification development for the ATS candidate processor (`main.go`).

The program is a Go HTTP service: `processCandidates` receives a batch of
candidates, fans out one goroutine per candidate (`handleCandidate`),
aggregates a success counter and a failure list under one mutex, zips the
factsheet directory (`zipFolder`) and, via `defer`, removes the job's
workspace tree.

Shallow embedding conventions:
- strings are `List Char` (`Str`); `filepath.Join dir name` for the clean
  paths used here is modelled as `dir ++ "/" ++ name` at the character level;
- external effects (PDF rendering, HTTP, libreoffice, pdfunite, os.Rename)
  are modelled by an oracle environment recording how each call would end,
  and the pipeline is a pure function of candidate plus oracle that returns
  the Go function's error value, the ordered trace of external invocations,
  and the set of files left on disk.
-/

/-- Strings of the Go program, modelled as lists of characters. -/
abbrev Str := List Char

/-- Go `strings.ReplaceAll s (String.singleton x) "_"` for a single character
`x` (every `ReplaceAll` in `sanitizeFilename` has a one-character pattern). -/
def replaceChar (l : Str) (x : Char) : Str :=
  l.map (fun c => if c = x then '_' else c)

/-- One pass of `strings.ReplaceAll s "__" "_"`: left-to-right,
non-overlapping replacement of each `__` by `_`. -/
def replaceDouble : Str → Str
  | [] => []
  | [c] => [c]
  | a :: b :: t =>
    if a = '_' ∧ b = '_' then '_' :: replaceDouble t else a :: replaceDouble (b :: t)

/-- Go `strings.Contains s "__"` as a Boolean predicate: some adjacent pair of
characters is `__`. -/
def hasDoubleUnderscore : Str → Bool
  | [] => false
  | [_] => false
  | a :: b :: t => (a = '_' && b = '_') || hasDoubleUnderscore (b :: t)

/-- The `for strings.Contains(filename, "__")` loop of `sanitizeFilename`,
with explicit fuel.  Each productive iteration strictly shortens the string
(`replaceDouble_length_lt`), so `l.length` iterations always suffice and the
fuelled function computes exactly what the unbounded Go loop computes. -/
def collapseGo : Nat → Str → Str
  | 0, l => l
  | n + 1, l => if hasDoubleUnderscore l then collapseGo n (replaceDouble l) else l

/-- The collapse loop of `sanitizeFilename` (lines 219–221 of main.go). -/
def collapseUnderscores (l : Str) : Str :=
  collapseGo l.length l

/-- Go `strings.Trim s "_"`: drop `_` from both ends. -/
def trimUnderscores (l : Str) : Str :=
  ((l.dropWhile (fun c => c = '_')).reverse.dropWhile (fun c => c = '_')).reverse

/-- The characters `sanitizeFilename` replaces by `_`
(space, `/`, `\`, `:`, `*`, `?`, `"`, `<`, `>`, `|`, `@`, `#`, `%`, `&`, `+`, `=`). -/
def sanitizedChars : Str :=
  [' ', '/', '\\', ':', '*', '?', '"', '<', '>', '|', '@', '#', '%', '&', '+', '=']

/-- The function `sanitizeFilename` (main.go lines 198–232): replace each character of
`sanitizedChars` by `_`, collapse runs of `_`, trim `_` from both ends, then
truncate to 50 characters. -/
def sanitizeFilename (l : Str) : Str :=
  let l := sanitizedChars.foldl replaceChar l
  let l := collapseUnderscores l
  let l := trimUnderscores l
  if l.length > 50 then l.take 50 else l

example : sanitizeFilename "Acme  Corp/HR".data = "Acme_Corp_HR".data := by decide

example : sanitizeFilename "_a__b_".data = "a_b".data := by decide

lemma replaceDouble_length_le (l : Str) : (replaceDouble l).length ≤ l.length := by
  induction l using replaceDouble.induct with
  | case1 => simp [replaceDouble]
  | case2 c => simp [replaceDouble]
  | case3 a b t hab ih =>
    simp only [replaceDouble, if_pos hab, List.length_cons]
    omega
  | case4 a b t hab ih =>
    simp only [replaceDouble, if_neg hab, List.length_cons]
    simp only [List.length_cons] at ih
    omega

lemma replaceDouble_length_lt (l : Str) (h : hasDoubleUnderscore l = true) :
    (replaceDouble l).length < l.length := by
  induction l using replaceDouble.induct with
  | case1 => simp [hasDoubleUnderscore] at h
  | case2 c => simp [hasDoubleUnderscore] at h
  | case3 a b t hab ih =>
    have := replaceDouble_length_le t
    simp only [replaceDouble, if_pos hab, List.length_cons]
    omega
  | case4 a b t hab ih =>
    have ht : hasDoubleUnderscore (b :: t) = true := by
      simp only [hasDoubleUnderscore, Bool.or_eq_true, Bool.and_eq_true,
        decide_eq_true_eq] at h
      rcases h with h | h
      · exact absurd h hab
      · exact h
    have := ih ht
    simp only [replaceDouble, if_neg hab, List.length_cons]
    simp only [List.length_cons] at this
    omega

lemma hasDD_collapseGo (n : Nat) (l : Str) (h : l.length ≤ n) :
    hasDoubleUnderscore (collapseGo n l) = false := by
  induction n generalizing l with
  | zero =>
    have : l = [] := List.eq_nil_of_length_eq_zero (Nat.le_zero.mp h)
    subst this
    simp [collapseGo, hasDoubleUnderscore]
  | succ n ih =>
    by_cases hd : hasDoubleUnderscore l = true
    · have hlt := replaceDouble_length_lt l hd
      simp only [collapseGo, hd, if_true]
      exact ih (replaceDouble l) (by omega)
    · simp only [collapseGo, hd, if_false]
      exact Bool.not_eq_true _ |>.mp hd

lemma hasDD_cons (c : Char) {t : Str} (h : hasDoubleUnderscore t = true) :
    hasDoubleUnderscore (c :: t) = true := by
  cases t with
  | nil => simp [hasDoubleUnderscore] at h
  | cons b t' => simp [hasDoubleUnderscore, h]

lemma hasDD_append_right (u : Str) {v : Str} (h : hasDoubleUnderscore v = true) :
    hasDoubleUnderscore (u ++ v) = true := by
  induction u with
  | nil => simpa using h
  | cons a u ih => exact hasDD_cons a ih

lemma hasDD_append_left {m : Str} (v : Str) (h : hasDoubleUnderscore m = true) :
    hasDoubleUnderscore (m ++ v) = true := by
  induction m using hasDoubleUnderscore.induct with
  | case1 => simp [hasDoubleUnderscore] at h
  | case2 c => simp [hasDoubleUnderscore] at h
  | case3 a b t ih =>
    simp only [hasDoubleUnderscore, Bool.or_eq_true, Bool.and_eq_true] at h ⊢
    rcases h with h | h
    · exact Or.inl h
    · exact Or.inr (by simpa using ih h)

lemma hasDD_of_contained {m l : Str} (hinf : m <:+: l) (h : hasDoubleUnderscore m = true) :
    hasDoubleUnderscore l = true := by
  obtain ⟨s, t, rfl⟩ := hinf
  rw [List.append_assoc]
  exact hasDD_append_right s (hasDD_append_left t h)

lemma trimUnderscores_prefix_dropWhile (l : Str) :
    trimUnderscores l <+: l.dropWhile (fun c => c = '_') := by
  unfold trimUnderscores
  apply List.reverse_suffix.mp
  simpa using List.dropWhile_suffix (l := (l.dropWhile (fun c => c = '_')).reverse)
    (fun c => c = '_')

lemma trimUnderscores_contained (l : Str) : trimUnderscores l <:+: l :=
  List.IsInfix.trans ( List.IsPrefix.isInfix (trimUnderscores_prefix_dropWhile l))
    ( List.IsSuffix.isInfix (List.dropWhile_suffix _))

lemma head?_dropWhile_ne (l : Str) :
    ¬ (l.dropWhile (fun c => c = '_')).head? = some '_' := by
  induction l with
  | nil => simp
  | cons a t ih =>
    by_cases h : a = '_'
    · simpa [List.dropWhile_cons, h] using ih
    · simp [List.dropWhile_cons, h]

lemma isPrefix_head? {p q : Str} (h : p <+: q) (hne : p ≠ []) : q.head? = p.head? := by
  obtain ⟨t, rfl⟩ := h
  exact List.head?_append_of_ne_nil p hne

lemma mem_replaceDouble {c : Char} {l : Str} (h : c ∈ replaceDouble l) : c ∈ l := by
  induction l using replaceDouble.induct with
  | case1 => simp [replaceDouble] at h
  | case2 x => simpa [replaceDouble] using h
  | case3 a b t hab ih =>
    rw [replaceDouble, if_pos hab] at h
    rcases List.mem_cons.mp h with h | h
    · subst h; simp [hab.1]
    · simp [List.mem_cons, ih h]
  | case4 a b t hab ih =>
    rw [replaceDouble, if_neg hab] at h
    rcases List.mem_cons.mp h with h | h
    · simp [h]
    · simpa [List.mem_cons] using Or.inr (List.mem_cons.mp (ih h))

lemma mem_collapseGo {c : Char} (n : Nat) {l : Str} (h : c ∈ collapseGo n l) : c ∈ l := by
  induction n generalizing l with
  | zero => simpa [collapseGo] using h
  | succ n ih =>
    rw [collapseGo] at h
    split at h
    · exact mem_replaceDouble (ih h)
    · exact h

lemma mem_collapseUnderscores {c : Char} {l : Str} (h : c ∈ collapseUnderscores l) : c ∈ l :=
  mem_collapseGo _ h

lemma not_mem_replaceChar_self {l : Str} {x : Char} (hx : x ≠ '_') :
    x ∉ replaceChar l x := by
  simp only [replaceChar, List.mem_map, not_exists]
  rintro a ⟨ha, hfa⟩
  by_cases h : a = x
  · rw [if_pos h] at hfa; exact hx hfa.symm
  · rw [if_neg h] at hfa; exact h hfa

lemma not_mem_replaceChar {l : Str} {x y : Char} (hy : y ∉ l) (hyu : y ≠ '_') :
    y ∉ replaceChar l x := by
  simp only [replaceChar, List.mem_map, not_exists]
  rintro a ⟨ha, hfa⟩
  by_cases h : a = x
  · rw [if_pos h] at hfa; exact hyu hfa.symm
  · rw [if_neg h] at hfa; exact hy (hfa ▸ ha)

lemma not_mem_foldl_replaceChar (bs : Str) {l : Str} {y : Char}
    (hmem : y ∉ l) (hyu : y ≠ '_') : y ∉ bs.foldl replaceChar l := by
  induction bs generalizing l with
  | nil => simpa using hmem
  | cons b bs ih => exact ih (not_mem_replaceChar hmem hyu)

lemma foldl_replaceChar_not_mem {bs l : Str} {x : Char} (hx : x ∈ bs) (hxu : x ≠ '_') :
    x ∉ bs.foldl replaceChar l := by
  induction bs generalizing l with
  | nil => simp at hx
  | cons b bs ih =>
    rcases List.mem_cons.mp hx with h | h
    · subst h
      exact not_mem_foldl_replaceChar bs (not_mem_replaceChar_self hxu) hxu
    · exact ih h

lemma replaceChar_eq_self {l : Str} {x : Char} (h : x ∉ l) : replaceChar l x = l := by
  unfold replaceChar
  rw [List.map_congr_left (g := id), List.map_id]
  intro a ha
  simp only [id]
  rw [if_neg (by rintro rfl; exact h ha)]

lemma foldl_replaceChar_eq_self {bs l : Str} (h : ∀ x ∈ bs, x ∉ l) :
    bs.foldl replaceChar l = l := by
  induction bs with
  | nil => rfl
  | cons b bs ih =>
    have hb : replaceChar l b = l := replaceChar_eq_self (h b (by simp))
    simp only [List.foldl_cons, hb]
    exact ih (fun x hx => h x (by simp [hx]))

lemma collapseGo_eq_self {n : Nat} {l : Str} (h : hasDoubleUnderscore l = false) :
    collapseGo n l = l := by
  cases n with
  | zero => rfl
  | succ n => simp [collapseGo, h]

lemma collapseUnderscores_eq_self {l : Str} (h : hasDoubleUnderscore l = false) :
    collapseUnderscores l = l :=
  collapseGo_eq_self h

lemma dropWhile_underscore_eq_self {l : Str} (h : ¬ l.head? = some '_') :
    l.dropWhile (fun c => c = '_') = l := by
  cases l with
  | nil => rfl
  | cons a t =>
    simp only [List.head?_cons] at h
    rw [List.dropWhile_cons, if_neg (by simpa using fun hc => h (by rw [hc]))]

lemma trimUnderscores_eq_self {l : Str} (h1 : ¬ l.head? = some '_')
    (h2 : ¬ l.getLast? = some '_') : trimUnderscores l = l := by
  unfold trimUnderscores
  rw [dropWhile_underscore_eq_self h1]
  rw [dropWhile_underscore_eq_self (by rwa [List.head?_reverse])]
  exact List.reverse_reverse l

/-- All of `sanitizeFilename`'s pipeline stages bundled: the exact value of
the pre-truncation string. -/
lemma sanitizeFilename_eq (l : Str) :
    sanitizeFilename l =
      (if (trimUnderscores (collapseUnderscores (sanitizedChars.foldl replaceChar l))).length > 50
       then (trimUnderscores (collapseUnderscores (sanitizedChars.foldl replaceChar l))).take 50
       else trimUnderscores (collapseUnderscores (sanitizedChars.foldl replaceChar l))) := rfl

lemma sanitizeFilename_length_le (l : Str) : (sanitizeFilename l).length ≤ 50 := by
  rw [sanitizeFilename_eq]
  split
  · simp
  · omega

lemma sanitizeFilename_prefix_trim (l : Str) :
    sanitizeFilename l <+: trimUnderscores (collapseUnderscores (sanitizedChars.foldl replaceChar l)) := by
  rw [sanitizeFilename_eq]
  split
  · exact List.take_prefix _ _
  · exact List.prefix_refl _

lemma sanitizeFilename_not_mem {l : Str} {x : Char} (hx : x ∈ sanitizedChars) :
    x ∉ sanitizeFilename l := by
  have hxu : x ≠ '_' := by
    rintro rfl
    revert hx
    decide
  intro hmem
  have h1 : x ∈ trimUnderscores (collapseUnderscores (sanitizedChars.foldl replaceChar l)) :=
    (sanitizeFilename_prefix_trim l).sublist.subset hmem
  have h2 : x ∈ collapseUnderscores (sanitizedChars.foldl replaceChar l) :=
    List.IsInfix.subset (trimUnderscores_contained _) h1
  have h3 : x ∈ sanitizedChars.foldl replaceChar l := mem_collapseUnderscores h2
  exact foldl_replaceChar_not_mem hx hxu h3

lemma hasDD_trim_collapse (l : Str) :
    hasDoubleUnderscore (trimUnderscores (collapseUnderscores l)) = false := by
  by_contra h
  have h' : hasDoubleUnderscore (trimUnderscores (collapseUnderscores l)) = true :=
    Bool.of_not_eq_false h
  have := hasDD_of_contained (trimUnderscores_contained _) h'
  rw [collapseUnderscores, hasDD_collapseGo _ _ le_rfl] at this
  exact Bool.false_ne_true this

lemma sanitizeFilename_hasDD (l : Str) :
    hasDoubleUnderscore (sanitizeFilename l) = false := by
  by_contra h
  have h' : hasDoubleUnderscore (sanitizeFilename l) = true := Bool.of_not_eq_false h
  have := hasDD_of_contained ( List.IsPrefix.isInfix (sanitizeFilename_prefix_trim l)) h'
  rw [hasDD_trim_collapse] at this
  exact Bool.false_ne_true this

lemma head?_trimUnderscores_ne (l : Str) : ¬ (trimUnderscores l).head? = some '_' := by
  intro h
  by_cases hne : trimUnderscores l = []
  · rw [hne] at h; simp at h
  · have := isPrefix_head? (trimUnderscores_prefix_dropWhile l) hne
    rw [h] at this
    exact head?_dropWhile_ne l this

lemma getLast?_trimUnderscores_ne (l : Str) : ¬ (trimUnderscores l).getLast? = some '_' := by
  unfold trimUnderscores
  rw [List.getLast?_reverse]
  exact head?_dropWhile_ne _

lemma sanitizeFilename_head (l : Str) : ¬ (sanitizeFilename l).head? = some '_' := by
  intro h
  by_cases hne : sanitizeFilename l = []
  · rw [hne] at h; simp at h
  · have := isPrefix_head? (sanitizeFilename_prefix_trim l) hne
    rw [h] at this
    exact head?_trimUnderscores_ne _ this

lemma sanitizeFilename_getLast (l : Str) (h : (sanitizeFilename l).length < 50) :
    ¬ (sanitizeFilename l).getLast? = some '_' := by
  rw [sanitizeFilename_eq] at h ⊢
  by_cases hgt :
      (trimUnderscores (collapseUnderscores (sanitizedChars.foldl replaceChar l))).length > 50
  · rw [if_pos hgt, List.length_take] at h
    omega
  · rw [if_neg hgt]
    exact getLast?_trimUnderscores_ne _

/-- One full sanitization pass is the identity on any string that is already
in sanitized form and does not end with `_`. -/
lemma sanitizeFilename_eq_self {r : Str} (hb : ∀ x ∈ sanitizedChars, x ∉ r)
    (hdd : hasDoubleUnderscore r = false) (hh : ¬ r.head? = some '_')
    (hl : ¬ r.getLast? = some '_') (hlen : r.length ≤ 50) :
    sanitizeFilename r = r := by
  rw [sanitizeFilename_eq]
  rw [foldl_replaceChar_eq_self hb, collapseUnderscores_eq_self hdd,
    trimUnderscores_eq_self hh hl]
  rw [if_neg (by omega)]

/-- Sanitization applied twice agrees with sanitization applied once whenever
the single pass does not end with an underscore (a trailing underscore can
only be produced by the final 50-character truncation). -/
lemma sanitizeFilename_idem_of {l : Str} (h : ¬ (sanitizeFilename l).getLast? = some '_') :
    sanitizeFilename (sanitizeFilename l) = sanitizeFilename l :=
  sanitizeFilename_eq_self (fun _ hx => sanitizeFilename_not_mem hx)
    (sanitizeFilename_hasDD l) (sanitizeFilename_head l) h
    (sanitizeFilename_length_le l)

/-- The archive file name built at main.go lines 160–162:
`fmt.Sprintf("%s_%s_factsheets_%s.zip", sanitizedTenant, sanitizedCompany, jobID)`. -/
def zipFileName (tenantName companyName jobID : Str) : Str :=
  sanitizeFilename tenantName ++ "_".data ++ sanitizeFilename companyName ++
    "_factsheets_".data ++ jobID ++ ".zip".data

lemma zipFileName_no_slash {tenantName companyName jobID : Str}
    (hj : '/' ∉ jobID) : '/' ∉ zipFileName tenantName companyName jobID := by
  unfold zipFileName
  intro h
  simp only [List.mem_append] at h
  rcases h with ((((h | h) | h) | h) | h) | h
  · exact sanitizeFilename_not_mem (by decide) h
  · revert h; decide
  · exact sanitizeFilename_not_mem (by decide) h
  · revert h; decide
  · exact hj h
  · revert h; decide

/-- C7 counterexample: sanitizing the label `a-b` yields `a-b` again — the
hyphen survives, and it is neither alphanumeric nor an underscore, so the
claim that the output contains only alphanumerics and underscores is false. -/
theorem claim_C7_counterexample :
    '-' ∈ sanitizeFilename "a-b".data ∧ '-'.isAlphanum = false ∧ '-' ≠ '_' := by
  decide

/-- C7 (amended): for every label, the sanitized output has at most 50
characters, contains none of the 16 explicitly replaced characters (other
special characters such as `-` or `.` pass through), has no two consecutive
underscores and no leading underscore, and can end in an underscore only when
the 50-character truncation fired (any output shorter than 50 has no trailing
underscore); the archive name is the two sanitized labels joined with the
fixed `_factsheets_<jobID>.zip` suffix. -/
theorem claim_C7_sanitize_archive_name (l tenantName companyName jobID : Str) :
    (sanitizeFilename l).length ≤ 50
    ∧ (∀ x ∈ sanitizedChars, x ∉ sanitizeFilename l)
    ∧ hasDoubleUnderscore (sanitizeFilename l) = false
    ∧ ¬ (sanitizeFilename l).head? = some '_'
    ∧ ((sanitizeFilename l).length < 50 → ¬ (sanitizeFilename l).getLast? = some '_')
    ∧ zipFileName tenantName companyName jobID =
        sanitizeFilename tenantName ++ "_".data ++ sanitizeFilename companyName ++
          "_factsheets_".data ++ jobID ++ ".zip".data :=
  ⟨sanitizeFilename_length_le l, fun _ hx => sanitizeFilename_not_mem hx,
   sanitizeFilename_hasDD l, sanitizeFilename_head l, sanitizeFilename_getLast l, rfl⟩

/-- Witness for C7 at the concrete label `Acme Corp`. -/
theorem claim_C7_witness :
    (sanitizeFilename "Acme Corp".data).length ≤ 50
    ∧ '/' ∉ sanitizeFilename "Acme Corp".data
    ∧ hasDoubleUnderscore (sanitizeFilename "Acme Corp".data) = false
    ∧ ¬ (sanitizeFilename "Acme Corp".data).head? = some '_'
    ∧ ¬ (sanitizeFilename "Acme Corp".data).getLast? = some '_' :=
  have h := claim_C7_sanitize_archive_name "Acme Corp".data "t".data "c".data "j".data
  ⟨h.1, h.2.1 '/' (by decide), h.2.2.1, h.2.2.2.1, h.2.2.2.2.1 (by decide)⟩

/-- C8 counterexample: for the 51-character label of 49 `a`s followed by
`_b`, one sanitization pass truncates to 49 `a`s followed by `_`, and a
second pass strips that trailing underscore, so sanitizing twice differs
from sanitizing once. -/
theorem claim_C8_counterexample :
    sanitizeFilename (sanitizeFilename (List.replicate 49 'a' ++ "_b".data))
      ≠ sanitizeFilename (List.replicate 49 'a' ++ "_b".data) := by
  decide

/-- C8 (amended): sanitization is idempotent on every label whose single-pass
result does not end with an underscore; a trailing underscore can only be
introduced by the final 50-character truncation, and only then can a second
pass differ (it additionally strips that underscore). -/
theorem claim_C8_sanitize_idempotent (l : Str)
    (h : ¬ (sanitizeFilename l).getLast? = some '_') :
    sanitizeFilename (sanitizeFilename l) = sanitizeFilename l :=
  sanitizeFilename_idem_of h

/-- Witness for C8 at the concrete label `Acme Corp`. -/
theorem claim_C8_witness :
    ¬ (sanitizeFilename "Acme Corp".data).getLast? = some '_'
    ∧ sanitizeFilename (sanitizeFilename "Acme Corp".data)
        = sanitizeFilename "Acme Corp".data :=
  ⟨by decide, claim_C8_sanitize_idempotent "Acme Corp".data (by decide)⟩

/-- A candidate record (main.go lines 22–30). -/
structure Candidate where
  name : Str
  email : Str
  mobileNo : Str
  skills : List Str
  experience : Str
  qualification : Str
  resumeURL : Str
  deriving DecidableEq

instance {ε α : Type} [DecidableEq ε] [DecidableEq α] : DecidableEq (Except ε α) := fun a b =>
  match a, b with
  | .error e, .error f =>
    if h : e = f then isTrue (by rw [h]) else isFalse (fun hc => h (by injection hc))
  | .error _, .ok _ => isFalse (fun hc => Except.noConfusion hc)
  | .ok _, .error _ => isFalse (fun hc => Except.noConfusion hc)
  | .ok x, .ok y =>
    if h : x = y then isTrue (by rw [h]) else isFalse (fun hc => h (by injection hc))

/-- Oracle for one `downloadFile` call: how `client.Get` ends (network error
or a status code), and whether `os.Create` / `io.Copy` fail. -/
structure FetchEnv where
  getResult : Except Str Nat
  createErr : Option Str
  copyErr : Option Str
  deriving DecidableEq

/-- Decimal rendering of a number, as Go's `%d`. -/
def natToStr (n : Nat) : Str := (Nat.repr n).data

/-- The function `downloadFile` (main.go lines 355–377): returns the function's error
value together with whether the destination file was created on disk
(`os.Create` runs only after the status check, and leaves a file even when
the subsequent copy fails). -/
def downloadFile (env : FetchEnv) : Except Str Unit × Bool :=
  match env.getResult with
  | .error e => (.error e, false)
  | .ok status =>
    if status ≠ 200 then
      (.error ("failed to download file: HTTP ".data ++ natToStr status), false)
    else
      match env.createErr with
      | some e => (.error e, false)
      | none =>
        match env.copyErr with
        | some e => (.error e, true)
        | none => (.ok (), true)

/-- Modelled from the spec's words: a "non-success status code" read as the
HTTP success class 2xx.  Used only to compare the claim's wording with what
the code checks (`resp.StatusCode != http.StatusOK`, i.e. exactly 200). -/
def specSuccessStatus (n : Nat) : Bool := decide (200 ≤ n) && decide (n < 300)

/-- One external invocation of the per-candidate pipeline. -/
inductive PipelineEvent where
  | renderFactsheet
  | download
  | convertResume
  | renameResume
  | mergeDocs
  | replaceFactsheet
  deriving DecidableEq

/-- Oracle for one `handleCandidate` call: how each fallible step would end. -/
structure TaskEnv where
  renderErr : Option Str
  fetch : FetchEnv
  convertErr : Option Str
  mergeErr : Option Str
  renameErr : Option Str
  deriving DecidableEq

/-- Go `strings.ReplaceAll email "@" "_"` (used twice in `handleCandidate`). -/
def replaceAtSign (email : Str) : Str :=
  email.map (fun c => if c = '@' then '_' else c)

/-- The factsheet file name derived from a candidate's email
(main.go line 240: `fmt.Sprintf("%s_factsheet.pdf", strings.ReplaceAll(cand.Email, "@", "_"))`). -/
def factsheetFileName (email : Str) : Str :=
  replaceAtSign email ++ "_factsheet.pdf".data

/-- The factsheet artifact path inside the factsheet directory. -/
def factsheetPath (factsheetDir email : Str) : Str :=
  factsheetDir ++ "/".data ++ factsheetFileName email

/-- The candidate-private scratch directory (main.go line 236). -/
def candTempDir (tempDir email : Str) : Str :=
  tempDir ++ "/".data ++ replaceAtSign email

/-- Go `filepath.Join(candTempDir, "resume")` (main.go line 246). -/
def resumeFilePath (ctd : Str) : Str := ctd ++ "/resume".data

/-- The path `resumeFile + ".pdf"` (main.go line 252). -/
def resumePDFPath (ctd : Str) : Str := resumeFilePath ctd ++ ".pdf".data

/-- Go `filepath.Join(candTempDir, "merged.pdf")` (main.go line 262). -/
def mergedPath (ctd : Str) : Str := ctd ++ "/merged.pdf".data

/-- Go `strings.HasSuffix(strings.ToLower(url), ".pdf")` (main.go line 253). -/
def hasPdfSuffix (url : Str) : Bool :=
  ".pdf".data.isSuffixOf (url.map Char.toLower)

/-- Go `filepath.Ext`: the suffix of the path starting at the last dot of its
final element, scanning backwards and stopping at a path separator. -/
def extGo : Str → Str → Str
  | _, [] => []
  | acc, c :: rest =>
    if c = '/' then [] else if c = '.' then c :: acc else extGo (c :: acc) rest

/-- Go `filepath.Ext p` on the character list. -/
def filepathExt (p : Str) : Str := extGo [] p.reverse

/-- Go `filepath.Base`: empty path gives `.`; otherwise strip trailing
separators and keep everything after the last remaining separator (`/` if
nothing remains). -/
def filepathBase (p : Str) : Str :=
  if p = [] then ".".data
  else
    let q := p.reverse.dropWhile (fun c => c = '/')
    let b := q.takeWhile (fun c => ¬ c = '/')
    if b = [] then "/".data else b.reverse

/-- Go `strings.TrimSuffix`. -/
def trimSuffix (s suffix : Str) : Str :=
  if suffix.isSuffixOf s then s.take (s.length - suffix.length) else s

/-- The output path `convertToPDF` derives (main.go lines 390–391):
`filepath.Join(outputDir, strings.TrimSuffix(filepath.Base(inputPath), filepath.Ext(inputPath)) + ".pdf")`. -/
def convertToPDFOutput (inputPath outputDir : Str) : Str :=
  outputDir ++ "/".data ++ (trimSuffix (filepathBase inputPath) (filepathExt inputPath) ++ ".pdf".data)

/-- Result of one per-candidate task: the Go error value, the ordered trace
of steps reached, and the files the task leaves on disk. -/
structure TaskResult where
  result : Except Str Unit
  events : List PipelineEvent
  files : List Str
  deriving DecidableEq

/-- Steps 4–5 of `handleCandidate` (main.go lines 261–272): merge the
factsheet with the resume into `merged.pdf` in the scratch directory, then
`os.Rename` the merged file over the artifact-directory factsheet. -/
def finishMerge (env : TaskEnv) (ctd : Str) (files : List Str)
    (events : List PipelineEvent) : TaskResult :=
  match env.mergeErr with
  | some e =>
    ⟨.error ("failed to merge pdfs: ".data ++ e), events ++ [.mergeDocs], files⟩
  | none =>
    let files2 := files ++ [mergedPath ctd]
    match env.renameErr with
    | some e =>
      ⟨.error ("failed to move merged file: ".data ++ e), events ++ [.mergeDocs], files2⟩
    | none =>
      ⟨.ok (), events ++ [.mergeDocs, .replaceFactsheet], files2.erase (mergedPath ctd)⟩

/-- The function `handleCandidate` (main.go lines 234–273): render the factsheet straight
into the factsheet directory, download the resume into the candidate's
scratch directory, rename it in place when the URL already ends in `.pdf`
(case-insensitively) or invoke the converter otherwise, merge, and replace
the factsheet with the merged file. -/
def handleCandidate (cand : Candidate) (env : TaskEnv) (factsheetDir tempDir : Str) :
    TaskResult :=
  let ctd := candTempDir tempDir cand.email
  let fsPath := factsheetPath factsheetDir cand.email
  match env.renderErr with
  | some e => ⟨.error ("failed to generate factsheet: ".data ++ e), [.renderFactsheet], []⟩
  | none =>
    let resumeFile := resumeFilePath ctd
    let dl := downloadFile env.fetch
    let files1 := [fsPath] ++ (if dl.2 then [resumeFile] else [])
    match dl.1 with
    | .error e =>
      ⟨.error ("failed to download resume: ".data ++ e),
       [.renderFactsheet, .download], files1⟩
    | .ok _ =>
      if hasPdfSuffix cand.resumeURL then
        -- `os.Rename(resumeFile, resumePDF)`; the source ignores its error
        finishMerge env ctd ((files1.erase resumeFile) ++ [resumePDFPath ctd])
          [.renderFactsheet, .download, .renameResume]
      else
        match env.convertErr with
        | some e =>
          ⟨.error ("conversion failed: ".data ++ e),
           [.renderFactsheet, .download, .convertResume], files1⟩
        | none =>
          finishMerge env ctd (files1 ++ [convertToPDFOutput resumeFile ctd])
            [.renderFactsheet, .download, .convertResume]

/-- One mutex-protected aggregation step (main.go lines 140–150): a failed
task appends `"<email>: <err>"` to the failure list, a successful one
increments the success counter. -/
def aggregateStep (acc : Nat × List Str) (o : Str × Except Str Unit) : Nat × List Str :=
  match o.2 with
  | .ok _ => (acc.1 + 1, acc.2)
  | .error e => (acc.1, acc.2 ++ [o.1 ++ ": ".data ++ e])

/-- Fan-in of the per-candidate outcomes in some completion order. -/
def aggregate (outcomes : List (Str × Except Str Unit)) : Nat × List Str :=
  outcomes.foldl aggregateStep (0, [])

/-- Job workspace root (main.go line 111):
`filepath.Join("/tmp/candidate-processor", jobID)`. -/
def baseDirOf (jobID : Str) : Str := "/tmp/candidate-processor/".data ++ jobID

/-- Artifact sub-tree (main.go line 112). -/
def factsheetDirOf (jobID : Str) : Str := baseDirOf jobID ++ "/factsheets".data

/-- Scratch sub-tree (main.go line 113). -/
def tempDirOf (jobID : Str) : Str := baseDirOf jobID ++ "/temp".data

/-- The archive path (main.go line 163): `filepath.Join("/tmp", zipFileName)`. -/
def zipPathOf (tenantName companyName jobID : Str) : Str :=
  "/tmp/".data ++ zipFileName tenantName companyName jobID

/-- The `(email, error)` outcome of every candidate's task, in the given
completion order. -/
def taskOutcomes (cands : List (Candidate × TaskEnv)) (jobID : Str) :
    List (Str × Except Str Unit) :=
  cands.map fun ce =>
    (ce.1.email, (handleCandidate ce.1 ce.2 (factsheetDirOf jobID) (tempDirOf jobID)).result)

/-- All files the candidate tasks leave in the workspace. -/
def taskFiles (cands : List (Candidate × TaskEnv)) (jobID : Str) : List Str :=
  (cands.map fun ce =>
    (handleCandidate ce.1 ce.2 (factsheetDirOf jobID) (tempDirOf jobID)).files).flatten

/-- Whether `p` lies inside the directory tree rooted at `dir` (it is `dir` itself or
has `dir ++ "/"` as a path prefix). -/
def underDir (dir p : Str) : Bool := p == dir || (dir ++ "/".data).isPrefixOf p

/-- Go `os.RemoveAll dir` on a file set: every path inside `dir`'s tree is gone. -/
def removeAll (fs : List Str) (dir : Str) : List Str :=
  fs.filter fun p => ! underDir dir p

/-- The files `zipFolder` walks (main.go lines 422–447): every file below
the factsheet directory at the time the archive is built. -/
def archiveContents (cands : List (Candidate × TaskEnv)) (jobID : Str) : List Str :=
  (taskFiles cands jobID).filter fun p => underDir (factsheetDirOf jobID) p

/-- The HTTP response `processCandidates` ends with. -/
inductive JobResponse where
  | badRequest (msg : String)
  | serverError (msg : String)
  | ok (status : String) (errors : List Str) (processedSuccessfully : Nat)
      (totalCandidates : Nat) (zipFilePath : Str)
  deriving DecidableEq

/-- The handler `processCandidates` (main.go lines 85–195): request validation, fan-out /
fan-in (the `order` parameter is the nondeterministic completion order in
which the goroutines take the aggregation mutex), archive creation (`zipErr`
says whether `zipFolder` fails), and the final JSON payload. -/
def processCandidates (tenantName companyName : Str)
    (cands order : List (Candidate × TaskEnv)) (jobID : Str) (zipErr : Bool) :
    JobResponse :=
  if tenantName = [] ∨ companyName = [] then
    .badRequest "tenant_name and company_name are required"
  else if cands = [] then
    .badRequest "candidates list cannot be empty"
  else
    let agg := aggregate (taskOutcomes order jobID)
    if zipErr then .serverError "Failed to zip files"
    else if agg.2.length > 0 then
      .ok "completed_with_errors" agg.2 agg.1 cands.length
        (zipPathOf tenantName companyName jobID)
    else
      .ok "completed_successfully" agg.2 agg.1 cands.length
        (zipPathOf tenantName companyName jobID)

/-- The files left on disk after a job: the tasks' workspace files plus the
archive (`os.Create` in `zipFolder` runs before the walk, so the archive file
exists on the failure exit too), minus the workspace tree removed by the
deferred `os.RemoveAll(baseDir)` — the `defer` runs on the early `return` of
the zip-failure branch as well as on the normal exit, hence the identical
cleanup in both branches of the model. -/
def runJobFinalFS (tenantName companyName jobID : Str)
    (cands : List (Candidate × TaskEnv)) (zipErr : Bool) : List Str :=
  let created := taskFiles cands jobID ++ [zipPathOf tenantName companyName jobID]
  if zipErr then removeAll created (baseDirOf jobID)
  else removeAll created (baseDirOf jobID)

lemma aggregate_foldl_invariant (outcomes : List (Str × Except Str Unit))
    (s0 : Nat) (e0 : List Str) :
    (outcomes.foldl aggregateStep (s0, e0)).1
      + (outcomes.foldl aggregateStep (s0, e0)).2.length
      = s0 + e0.length + outcomes.length := by
  induction outcomes generalizing s0 e0 with
  | nil => simp
  | cons o os ih =>
    rcases o with ⟨em, res⟩
    cases res with
    | ok u =>
      simp only [List.foldl_cons, aggregateStep]
      rw [ih]
      simp only [List.length_cons]
      omega
    | error e =>
      simp only [List.foldl_cons, aggregateStep]
      rw [ih]
      simp only [List.length_append, List.length_cons, List.length_nil]
      omega

/-- Sample data used by the concrete witnesses below. -/
def sampleCandidateA : Candidate :=
  ⟨"Alice".data, "alice@x.com".data, "1".data, [], "3y".data, "BSc".data,
   "http://host/a.pdf".data⟩

def sampleCandidateB : Candidate :=
  ⟨"Bob".data, "bob@x.com".data, "2".data, [], "4y".data, "MSc".data,
   "http://host/b.docx".data⟩

/-- Oracle where every step succeeds (HTTP 200, no failures). -/
def envAllOk : TaskEnv := ⟨none, ⟨.ok 200, none, none⟩, none, none, none⟩

/-- Oracle where the resume download answers HTTP 404. -/
def env404 : TaskEnv := ⟨none, ⟨.ok 404, none, none⟩, none, none, none⟩

/-- C1: whatever completion order the goroutines reach the aggregation mutex
in, each candidate's task contributes exactly one outcome — a success-counter
increment or one appended failure entry, never both and never neither — so
after the join barrier `success_count + failure_count` equals the number of
candidates in the batch. -/
theorem claim_C1_accounting (cands order : List (Candidate × TaskEnv)) (jobID : Str)
    (hperm : order.Perm cands) :
    (aggregate (taskOutcomes order jobID)).1
      + (aggregate (taskOutcomes order jobID)).2.length = cands.length := by
  unfold aggregate
  rw [aggregate_foldl_invariant]
  simp [taskOutcomes, hperm.length_eq]

/-- Witness for C1: two candidates completing in swapped order, one success
and one failure; the counts still add up to 2. -/
theorem claim_C1_witness :
    ([(sampleCandidateB, env404), (sampleCandidateA, envAllOk)]).Perm
        [(sampleCandidateA, envAllOk), (sampleCandidateB, env404)]
    ∧ (aggregate (taskOutcomes [(sampleCandidateB, env404), (sampleCandidateA, envAllOk)]
          "j1".data)).1
        + (aggregate (taskOutcomes [(sampleCandidateB, env404), (sampleCandidateA, envAllOk)]
            "j1".data)).2.length
        = ([(sampleCandidateA, envAllOk), (sampleCandidateB, env404)] :
            List (Candidate × TaskEnv)).length :=
  ⟨List.Perm.swap _ _ [], claim_C1_accounting _ _ _ (List.Perm.swap _ _ [])⟩

/-- C3: for a valid request whose archive step succeeds, the response is
always a 200 payload whose status is `completed_successfully` exactly when
the failure list is empty and `completed_with_errors` (with a non-empty
failure list) otherwise — candidate failures never surface as a
request-level error; only a `zipFolder` failure does, as a 500
`Failed to zip files`. -/
theorem claim_C3_status (tenantName companyName : Str)
    (cands order : List (Candidate × TaskEnv)) (jobID : Str)
    (ht : tenantName ≠ []) (hc : companyName ≠ []) (hcs : cands ≠ []) :
    (∃ st errs succ zp,
        processCandidates tenantName companyName cands order jobID false
          = .ok st errs succ cands.length zp
        ∧ (st = "completed_successfully" ↔ errs = [])
        ∧ (st = "completed_with_errors" ↔ errs ≠ [])
        ∧ (st = "completed_successfully" ∨ st = "completed_with_errors"))
    ∧ processCandidates tenantName companyName cands order jobID true
        = .serverError "Failed to zip files" := by
  have h1 : ¬(tenantName = [] ∨ companyName = []) := by tauto
  constructor
  · by_cases he : (aggregate (taskOutcomes order jobID)).2.length > 0
    · refine ⟨"completed_with_errors", (aggregate (taskOutcomes order jobID)).2,
        (aggregate (taskOutcomes order jobID)).1,
        zipPathOf tenantName companyName jobID, ?_, ?_, ?_, Or.inr rfl⟩
      · simp [processCandidates, h1, hcs, he]
      · constructor
        · intro hst; exact absurd hst (by decide)
        · intro hnil; rw [hnil] at he; simp at he
      · exact ⟨fun _ => by intro hnil; rw [hnil] at he; simp at he, fun _ => rfl⟩
    · refine ⟨"completed_successfully", (aggregate (taskOutcomes order jobID)).2,
        (aggregate (taskOutcomes order jobID)).1,
        zipPathOf tenantName companyName jobID, ?_, ?_, ?_, Or.inl rfl⟩
      · simp [processCandidates, h1, hcs, he]
      · have : (aggregate (taskOutcomes order jobID)).2 = [] :=
          List.eq_nil_of_length_eq_zero (by omega)
        exact ⟨fun _ => this, fun _ => rfl⟩
      · constructor
        · intro hst; exact absurd hst (by decide)
        · intro hne
          exact absurd (List.eq_nil_of_length_eq_zero (by omega)) hne
  · simp [processCandidates, h1, hcs]

/-- Witness for C3: a valid single-candidate request with a failing download;
the response is `completed_with_errors`, and with a zip failure it is the 500. -/
theorem claim_C3_witness :
    (∃ st errs succ zp,
        processCandidates "t".data "c".data [(sampleCandidateB, env404)]
            [(sampleCandidateB, env404)] "j1".data false
          = .ok st errs succ
              ([(sampleCandidateB, env404)] : List (Candidate × TaskEnv)).length zp
        ∧ (st = "completed_successfully" ↔ errs = [])
        ∧ (st = "completed_with_errors" ↔ errs ≠ [])
        ∧ (st = "completed_successfully" ∨ st = "completed_with_errors"))
    ∧ processCandidates "t".data "c".data [(sampleCandidateB, env404)]
        [(sampleCandidateB, env404)] "j1".data true
        = .serverError "Failed to zip files" :=
  claim_C3_status "t".data "c".data [(sampleCandidateB, env404)]
    [(sampleCandidateB, env404)] "j1".data (by decide) (by decide) (by decide)

/-- C6 counterexample: HTTP 204 is a success-class status (`specSuccessStatus`
as the claim's words read), yet the code — which checks
`resp.StatusCode != http.StatusOK`, i.e. exactly 200 — fails the fetch. -/
theorem claim_C6_counterexample :
    specSuccessStatus 204 = true
    ∧ (downloadFile ⟨.ok 204, none, none⟩).1
        = .error ("failed to download file: HTTP ".data ++ natToStr 204) := by
  constructor
  · decide
  · rfl

/-- C6 (amended): the fetch succeeds exactly when the network request
completes with status exactly 200 and both the local create and the copy
succeed; it fails on every other status — including success-class codes such
as 201 or 204, not merely non-success ones — and in the status case the
error message carries the numeric status code. -/
theorem claim_C6_downloadFile (env : FetchEnv) :
    ((downloadFile env).1 = .ok () ↔
      env.getResult = .ok 200 ∧ env.createErr = none ∧ env.copyErr = none)
    ∧ (∀ status : Nat, env.getResult = .ok status → status ≠ 200 →
        (downloadFile env).1
          = .error ("failed to download file: HTTP ".data ++ natToStr status)) := by
  rcases env with ⟨g, cr, cp⟩
  constructor
  · cases g with
    | error e => simp [downloadFile]
    | ok status =>
      by_cases hs : status = 200
      · subst hs
        cases cr with
        | some e => simp [downloadFile]
        | none =>
          cases cp with
          | some e => simp [downloadFile]
          | none => simp [downloadFile]
      · simp [downloadFile, hs]
  · intro status hg hs
    cases g with
    | error e => simp at hg
    | ok s =>
      have : s = status := by injection hg
      subst this
      simp [downloadFile, hs]

/-- Witness for C6: a 200 response with working writes succeeds, and the
404 case produces the message carrying "404". -/
theorem claim_C6_witness :
    ((downloadFile ⟨.ok 200, none, none⟩).1 = .ok () ↔
      (Except.ok 200 : Except Str Nat) = .ok 200 ∧ (none : Option Str) = none
        ∧ (none : Option Str) = none)
    ∧ (∀ status : Nat, (Except.ok 404 : Except Str Nat) = .ok status → status ≠ 200 →
        (downloadFile ⟨.ok 404, none, none⟩).1
          = .error ("failed to download file: HTTP ".data ++ natToStr status)) :=
  claim_C6_downloadFile ⟨.ok 404, none, none⟩ |>.2 |> fun h2 =>
    ⟨by simpa using (claim_C6_downloadFile ⟨.ok 200, none, none⟩).1, h2⟩

/-- The merge/replace tail of the event trace. -/
def mergeEvents (env : TaskEnv) : List PipelineEvent :=
  match env.mergeErr with
  | some _ => [.mergeDocs]
  | none =>
    match env.renameErr with
    | some _ => [.mergeDocs]
    | none => [.mergeDocs, .replaceFactsheet]

lemma handleCandidate_events (cand : Candidate) (env : TaskEnv) (fdir tdir : Str) :
    (handleCandidate cand env fdir tdir).events =
      match env.renderErr with
      | some _ => [.renderFactsheet]
      | none =>
        match (downloadFile env.fetch).1 with
        | .error _ => [.renderFactsheet, .download]
        | .ok _ =>
          if hasPdfSuffix cand.resumeURL then
            [.renderFactsheet, .download, .renameResume] ++ mergeEvents env
          else
            match env.convertErr with
            | some _ => [.renderFactsheet, .download, .convertResume]
            | none => [.renderFactsheet, .download, .convertResume] ++ mergeEvents env := by
  rcases env with ⟨re, fe, ce, me, rne⟩
  cases re with
  | some e => rfl
  | none =>
    cases hdl : (downloadFile fe).1 with
    | error e => simp [handleCandidate, hdl]
    | ok u =>
      by_cases hp : hasPdfSuffix cand.resumeURL
      · cases me <;> cases rne <;>
          simp [handleCandidate, finishMerge, hdl, hp, mergeEvents]
      · cases ce <;> cases me <;> cases rne <;>
          simp [handleCandidate, finishMerge, hdl, hp, mergeEvents]

/-- C5: when the resume URL already ends in `.pdf` (case-insensitively), the
converter is never invoked — the downloaded file is renamed in place; for any
other URL, once the pipeline reaches the conversion step (render and download
succeeded) the converter is invoked, and any merge invocation comes strictly
after it in the task's event order. -/
theorem claim_C5_fastpath (cand : Candidate) (env : TaskEnv) (fdir tdir : Str) :
    (hasPdfSuffix cand.resumeURL = true →
      PipelineEvent.convertResume ∉ (handleCandidate cand env fdir tdir).events
      ∧ (env.renderErr = none → (downloadFile env.fetch).1 = .ok () →
          PipelineEvent.renameResume ∈ (handleCandidate cand env fdir tdir).events))
    ∧ (hasPdfSuffix cand.resumeURL = false →
        env.renderErr = none → (downloadFile env.fetch).1 = .ok () →
        PipelineEvent.convertResume ∈ (handleCandidate cand env fdir tdir).events
        ∧ (PipelineEvent.mergeDocs ∈ (handleCandidate cand env fdir tdir).events →
            (handleCandidate cand env fdir tdir).events.indexOf .convertResume
              < (handleCandidate cand env fdir tdir).events.indexOf .mergeDocs)) := by
  simp only [handleCandidate_events]
  constructor
  · intro hp
    cases hre : env.renderErr with
    | some e =>
      simp only [hre]
      exact ⟨by simp, fun h1 _ => by cases h1⟩
    | none =>
      simp only [hre]
      cases hdl : (downloadFile env.fetch).1 with
      | error e =>
        simp only [hdl]
        exact ⟨by simp, fun _ hok => by cases hok⟩
      | ok u =>
        simp only [hdl, hp, if_true]
        refine ⟨?_, fun _ _ => ?_⟩
        · cases hme : env.mergeErr <;> cases hrne : env.renameErr <;>
            simp [mergeEvents, hme, hrne]
        · cases hme : env.mergeErr <;> cases hrne : env.renameErr <;>
            simp [mergeEvents, hme, hrne]
  · intro hp hre hok
    simp only [hre]
    cases hdl : (downloadFile env.fetch).1 with
    | error e =>
      rw [hdl] at hok
      cases hok
    | ok u =>
      simp only [hdl, hp, Bool.false_eq_true, if_false]
      cases hce : env.convertErr with
      | some e =>
        simp only [hce]
        refine ⟨by simp, fun hm => ?_⟩
        simp at hm
      | none =>
        simp only [hce]
        refine ⟨by simp, fun _ => ?_⟩
        cases hme : env.mergeErr <;> cases hrne : env.renameErr <;>
          simp [mergeEvents, hme, hrne]

/-- Witness for C5: for a concrete candidate with an uppercase `.PDF` URL and
an all-success oracle, the converter event never appears and the rename
event does. -/
theorem claim_C5_witness :
    PipelineEvent.convertResume ∉
      (handleCandidate ⟨"N".data, "n@x".data, [], [], [], [],
        "http://host/r.PDF".data⟩ envAllOk "/f".data "/t".data).events
    ∧ PipelineEvent.renameResume ∈
        (handleCandidate ⟨"N".data, "n@x".data, [], [], [], [],
          "http://host/r.PDF".data⟩ envAllOk "/f".data "/t".data).events :=
  have h := (claim_C5_fastpath ⟨"N".data, "n@x".data, [], [], [], [],
    "http://host/r.PDF".data⟩ envAllOk "/f".data "/t".data).1 (by decide)
  ⟨h.1, h.2 rfl rfl⟩

lemma filepathExt_resume (ctd : Str) : filepathExt (resumeFilePath ctd) = [] := by
  unfold filepathExt resumeFilePath
  rw [List.reverse_append]
  have hlit : (("/resume".data : Str)).reverse = ['e', 'm', 'u', 's', 'e', 'r', '/'] := rfl
  rw [hlit]
  simp [extGo]

lemma filepathBase_resume (ctd : Str) : filepathBase (resumeFilePath ctd) = "resume".data := by
  have hlit : ("/resume".data : Str) = ['/', 'r', 'e', 's', 'u', 'm', 'e'] := rfl
  unfold filepathBase resumeFilePath
  rw [hlit]
  rw [if_neg (by simp)]
  rw [List.reverse_append]
  have hrev : ((['/', 'r', 'e', 's', 'u', 'm', 'e'] : Str)).reverse
      = ['e', 'm', 'u', 's', 'e', 'r', '/'] := rfl
  rw [hrev]
  simp [List.dropWhile, List.takeWhile]

/-- C10: for a candidate on the conversion path, the resume path the pipeline
hands to the merge step (`resumeFile + ".pdf"`) is exactly the output path the
converter derives (base name of the input with its extension replaced by
`.pdf`, inside the candidate's scratch directory) — the downloaded file is
always named `resume` with no extension, so the merge step reads the file the
converter actually produced. -/
theorem claim_C10_convert_path (ctd url : Str) (_h : hasPdfSuffix url = false) :
    convertToPDFOutput (resumeFilePath ctd) ctd = resumePDFPath ctd := by
  unfold convertToPDFOutput resumePDFPath
  rw [filepathExt_resume, filepathBase_resume]
  have htrim : trimSuffix "resume".data [] = "resume".data := by decide
  rw [htrim]
  unfold resumeFilePath
  simp only [List.append_assoc]
  rfl

/-- Witness for C10 at a concrete scratch directory and a `.docx` URL. -/
theorem claim_C10_witness :
    hasPdfSuffix "http://host/r.docx".data = false
    ∧ convertToPDFOutput (resumeFilePath "/t/c".data) "/t/c".data
        = resumePDFPath "/t/c".data :=
  ⟨by decide, claim_C10_convert_path "/t/c".data "http://host/r.docx".data (by decide)⟩

lemma not_mem_replaceAtSign_slash {email : Str} (h : '/' ∉ email) :
    '/' ∉ replaceAtSign email := by
  unfold replaceAtSign
  simp only [List.mem_map, not_exists]
  rintro a ⟨ha, hfa⟩
  by_cases hq : a = '@'
  · rw [if_pos hq] at hfa
    exact absurd hfa (by decide)
  · rw [if_neg hq] at hfa
    exact h (hfa ▸ ha)

lemma not_mem_replaceAtSign_at (email : Str) : '@' ∉ replaceAtSign email := by
  unfold replaceAtSign
  simp only [List.mem_map, not_exists]
  rintro a ⟨ha, hfa⟩
  by_cases hq : a = '@'
  · rw [if_pos hq] at hfa
    exact absurd hfa (by decide)
  · rw [if_neg hq] at hfa
    exact hq hfa

/-- C9 counterexample: the derivation only replaces `@`, so the email
`../evil` yields the file name `../evil_factsheet.pdf`, which contains a path
separator (and a `..` segment) — refuting the claim that no email can make
the derived name contain path separators or escape the artifact directory. -/
theorem claim_C9_counterexample :
    factsheetFileName "../evil".data = "../evil_factsheet.pdf".data
    ∧ '/' ∈ factsheetFileName "../evil".data := by
  decide

/-- C9 (amended): the factsheet artifact path is deterministically derived
from the email with only `@` replaced by `_`; the derived name never contains
`@`, and it is a safe single path segment (no `/`) exactly for emails that
themselves contain no `/` — nothing guards against separator characters in
the email. -/
theorem claim_C9_factsheet_path (email fdir : Str) (h : '/' ∉ email) :
    '/' ∉ factsheetFileName email
    ∧ '@' ∉ factsheetFileName email
    ∧ factsheetPath fdir email = fdir ++ "/".data ++ factsheetFileName email := by
  refine ⟨?_, ?_, rfl⟩
  · unfold factsheetFileName
    intro hmem
    rcases List.mem_append.mp hmem with hmem | hmem
    · exact not_mem_replaceAtSign_slash h hmem
    · exact absurd hmem (by decide)
  · unfold factsheetFileName
    intro hmem
    rcases List.mem_append.mp hmem with hmem | hmem
    · exact not_mem_replaceAtSign_at email hmem
    · exact absurd hmem (by decide)

/-- Witness for C9 at the concrete email `x@y.com`. -/
theorem claim_C9_witness :
    '/' ∉ factsheetFileName "x@y.com".data
    ∧ '@' ∉ factsheetFileName "x@y.com".data
    ∧ factsheetPath "/f".data "x@y.com".data
        = "/f".data ++ "/".data ++ factsheetFileName "x@y.com".data :=
  claim_C9_factsheet_path "x@y.com".data "/f".data (by decide)

/-- Two appends with different fixed suffixes are never equal (compare the
last `n` characters). -/
lemma ne_of_rev_take_ne {s t : Str} {n : Nat} (hs : n ≤ s.length) (ht : n ≤ t.length)
    (hne : s.reverse.take n ≠ t.reverse.take n) (X Y : Str) : X ++ s ≠ Y ++ t := by
  intro h
  have h2 := congrArg (fun l : Str => l.reverse.take n) h
  simp only [List.reverse_append] at h2
  rw [List.take_append_of_le_length (by simpa using hs),
      List.take_append_of_le_length (by simpa using ht)] at h2
  exact hne h2

lemma factsheetPath_eq_append (fdir email : Str) :
    factsheetPath fdir email
      = (fdir ++ "/".data ++ replaceAtSign email) ++ "_factsheet.pdf".data := by
  unfold factsheetPath factsheetFileName
  simp [List.append_assoc]

lemma factsheetPath_ne_resumeFile (fdir email : Str) (ctd : Str) :
    factsheetPath fdir email ≠ resumeFilePath ctd := by
  rw [factsheetPath_eq_append]
  unfold resumeFilePath
  exact ne_of_rev_take_ne (n := 1) (by decide) (by decide) (by decide) _ _

lemma factsheetPath_ne_merged (fdir email : Str) (ctd : Str) :
    factsheetPath fdir email ≠ mergedPath ctd := by
  rw [factsheetPath_eq_append]
  unfold mergedPath
  exact ne_of_rev_take_ne (n := 5) (by decide) (by decide) (by decide) _ _

/-- C2 (amended): the factsheet written in step 1 is immediately visible in
the artifact directory — for every candidate and oracle, the candidate's
factsheet file is present after the task exactly when the render step
succeeded, regardless of whether any later step (download, conversion,
merge, final rename) failed.  So a candidate that fails after step 1 leaves
its plain, unmerged factsheet in the artifact directory, where the Archive
Packager picks it up. -/
theorem claim_C2_artifact_visibility (cand : Candidate) (env : TaskEnv) (fdir tdir : Str) :
    factsheetPath fdir cand.email ∈ (handleCandidate cand env fdir tdir).files
      ↔ env.renderErr = none := by
  have hfr := factsheetPath_ne_resumeFile fdir cand.email (candTempDir tdir cand.email)
  have hfm := factsheetPath_ne_merged fdir cand.email (candTempDir tdir cand.email)
  rcases env with ⟨re, fe, ce, me, rne⟩
  cases re with
  | some e => simp [handleCandidate]
  | none =>
    simp only [eq_self_iff_true, iff_true]
    cases hdl : (downloadFile fe).1 with
    | error e => simp [handleCandidate, hdl]
    | ok u =>
      by_cases hp : hasPdfSuffix cand.resumeURL
      · cases me with
        | some e =>
          simp only [handleCandidate, finishMerge, hdl, hp, if_true]
          rw [List.mem_append]
          left
          rw [List.mem_erase_of_ne hfr]
          simp
        | none =>
          cases rne with
          | some e =>
            simp only [handleCandidate, finishMerge, hdl, hp, if_true]
            rw [List.mem_append]
            left
            rw [List.mem_append]
            left
            rw [List.mem_erase_of_ne hfr]
            simp
          | none =>
            simp only [handleCandidate, finishMerge, hdl, hp, if_true]
            rw [List.mem_erase_of_ne hfm, List.mem_append]
            left
            rw [List.mem_append]
            left
            rw [List.mem_erase_of_ne hfr]
            simp
      · cases ce with
        | some e => simp [handleCandidate, hdl, hp]
        | none =>
          cases me with
          | some e => simp [handleCandidate, finishMerge, hdl, hp]
          | none =>
            cases rne with
            | some e => simp [handleCandidate, finishMerge, hdl, hp]
            | none =>
              simp only [handleCandidate, finishMerge, hdl, hp, Bool.false_eq_true,
                if_false]
              rw [List.mem_erase_of_ne hfm]
              simp

/-- C2 counterexample: a candidate whose download answers HTTP 404 fails the
task, yet their plain factsheet — written at step 1 straight into the
artifact directory — is still there when the Archive Packager walks it, so
the archive holds an entry for the failed candidate. -/
theorem claim_C2_counterexample :
    (handleCandidate sampleCandidateB env404 (factsheetDirOf "j1".data)
        (tempDirOf "j1".data)).result
      = .error ("failed to download resume: failed to download file: HTTP 404".data)
    ∧ factsheetPath (factsheetDirOf "j1".data) sampleCandidateB.email
        ∈ archiveContents [(sampleCandidateB, env404)] "j1".data := by
  decide

lemma underDir_slash (dir t : Str) : underDir dir (dir ++ "/".data ++ t) = true := by
  unfold underDir
  rw [Bool.or_eq_true]
  right
  rw [ List.isPrefixOf_iff_prefix, List.append_assoc]
  exact (List.prefix_append_right_inj dir).mpr (List.prefix_append _ t)

lemma mem_files1 {p fs rf : Str} {b : Bool}
    (hp : p ∈ [fs] ++ (if b = true then [rf] else [])) : p = fs ∨ p = rf := by
  cases b <;> simp at hp <;> tauto

/-- Every file a task can leave behind is one of five path shapes. -/
lemma handleCandidate_files_cases (cand : Candidate) (env : TaskEnv) (fdir tdir : Str) :
    ∀ p ∈ (handleCandidate cand env fdir tdir).files,
      p = factsheetPath fdir cand.email
      ∨ p = resumeFilePath (candTempDir tdir cand.email)
      ∨ p = resumePDFPath (candTempDir tdir cand.email)
      ∨ p = convertToPDFOutput (resumeFilePath (candTempDir tdir cand.email))
          (candTempDir tdir cand.email)
      ∨ p = mergedPath (candTempDir tdir cand.email) := by
  intro p hp
  rcases env with ⟨re, fe, ce, me, rne⟩
  cases re with
  | some e => simp [handleCandidate] at hp
  | none =>
    cases hdl : (downloadFile fe).1 with
    | error e =>
      simp only [handleCandidate, hdl] at hp
      rcases mem_files1 hp with h | h <;> tauto
    | ok u =>
      by_cases hpdf : hasPdfSuffix cand.resumeURL
      · cases me with
        | some e =>
          simp only [handleCandidate, finishMerge, hdl, hpdf, if_true] at hp
          rcases List.mem_append.mp hp with h | h
          · rcases mem_files1 (List.mem_of_mem_erase h) with h | h <;> tauto
          · simp at h; tauto
        | none =>
          cases rne with
          | some e =>
            simp only [handleCandidate, finishMerge, hdl, hpdf, if_true] at hp
            rcases List.mem_append.mp hp with h | h
            · rcases List.mem_append.mp h with h | h
              · rcases mem_files1 (List.mem_of_mem_erase h) with h | h <;> tauto
              · simp at h; tauto
            · simp at h; tauto
          | none =>
            simp only [handleCandidate, finishMerge, hdl, hpdf, if_true] at hp
            have hp2 := List.mem_of_mem_erase hp
            rcases List.mem_append.mp hp2 with h | h
            · rcases List.mem_append.mp h with h | h
              · rcases mem_files1 (List.mem_of_mem_erase h) with h | h <;> tauto
              · simp at h; tauto
            · simp at h; tauto
      · cases ce with
        | some e =>
          simp only [handleCandidate, hdl, hpdf, Bool.false_eq_true, if_false] at hp
          rcases mem_files1 hp with h | h <;> tauto
        | none =>
          cases me with
          | some e =>
            simp only [handleCandidate, finishMerge, hdl, hpdf, Bool.false_eq_true,
              if_false] at hp
            rcases List.mem_append.mp hp with h | h
            · rcases mem_files1 h with h | h <;> tauto
            · simp at h; tauto
          | none =>
            cases rne with
            | some e =>
              simp only [handleCandidate, finishMerge, hdl, hpdf, Bool.false_eq_true,
                if_false] at hp
              rcases List.mem_append.mp hp with h | h
              · rcases List.mem_append.mp h with h | h
                · rcases mem_files1 h with h | h <;> tauto
                · simp at h; tauto
              · simp at h; tauto
            | none =>
              simp only [handleCandidate, finishMerge, hdl, hpdf, Bool.false_eq_true,
                if_false] at hp
              have hp2 := List.mem_of_mem_erase hp
              rcases List.mem_append.mp hp2 with h | h
              · rcases List.mem_append.mp h with h | h
                · rcases mem_files1 h with h | h <;> tauto
                · simp at h; tauto
              · simp at h; tauto

lemma underDir_candTempDir (jobID email suffix : Str) :
    underDir (baseDirOf jobID) (candTempDir (tempDirOf jobID) email ++ suffix) = true := by
  have hsplit : ("/temp".data : Str) = "/".data ++ "temp".data := rfl
  have h : candTempDir (tempDirOf jobID) email ++ suffix
      = baseDirOf jobID ++ "/".data
          ++ ("temp".data ++ ("/".data ++ (replaceAtSign email ++ suffix))) := by
    simp [candTempDir, tempDirOf, hsplit, List.append_assoc]
  rw [h]
  exact underDir_slash _ _

lemma underDir_factsheetPath (jobID email : Str) :
    underDir (baseDirOf jobID) (factsheetPath (factsheetDirOf jobID) email) = true := by
  have hsplit : ("/factsheets".data : Str) = "/".data ++ "factsheets".data := rfl
  have h : factsheetPath (factsheetDirOf jobID) email
      = baseDirOf jobID ++ "/".data
          ++ ("factsheets".data ++ ("/".data ++ factsheetFileName email)) := by
    simp [factsheetPath, factsheetDirOf, hsplit, List.append_assoc]
  rw [h]
  exact underDir_slash _ _

lemma taskFiles_under (cands : List (Candidate × TaskEnv)) (jobID : Str) :
    ∀ p ∈ taskFiles cands jobID, underDir (baseDirOf jobID) p = true := by
  intro p hp
  unfold taskFiles at hp
  obtain ⟨m, hm, hpm⟩ := List.mem_flatten.mp hp
  obtain ⟨ce, hce, rfl⟩ := List.mem_map.mp hm
  rcases handleCandidate_files_cases ce.1 ce.2 (factsheetDirOf jobID) (tempDirOf jobID)
      p hpm with h | h | h | h | h
  · rw [h]; exact underDir_factsheetPath jobID ce.1.email
  · rw [h]
    exact underDir_candTempDir jobID ce.1.email "/resume".data
  · rw [h]
    have : resumePDFPath (candTempDir (tempDirOf jobID) ce.1.email)
        = candTempDir (tempDirOf jobID) ce.1.email ++ ("/resume".data ++ ".pdf".data) := by
      simp [resumePDFPath, resumeFilePath, List.append_assoc]
    rw [this]
    exact underDir_candTempDir jobID ce.1.email _
  · rw [h]
    have : convertToPDFOutput (resumeFilePath (candTempDir (tempDirOf jobID) ce.1.email))
          (candTempDir (tempDirOf jobID) ce.1.email)
        = candTempDir (tempDirOf jobID) ce.1.email
            ++ ("/".data ++ (trimSuffix
                  (filepathBase (resumeFilePath (candTempDir (tempDirOf jobID) ce.1.email)))
                  (filepathExt (resumeFilePath (candTempDir (tempDirOf jobID) ce.1.email)))
                ++ ".pdf".data)) := by
      simp [convertToPDFOutput, List.append_assoc]
    rw [this]
    exact underDir_candTempDir jobID ce.1.email _
  · rw [h]
    exact underDir_candTempDir jobID ce.1.email "/merged.pdf".data

lemma zipPath_not_under (tenantName companyName jobID : Str) (hj : '/' ∉ jobID) :
    underDir (baseDirOf jobID) (zipPathOf tenantName companyName jobID) = false := by
  have hname := @zipFileName_no_slash tenantName companyName jobID hj
  have hsplit : ("/tmp/candidate-processor/".data : Str)
      = "/tmp/".data ++ "candidate-processor/".data := rfl
  unfold underDir
  rw [Bool.or_eq_false_iff]
  constructor
  · rw [beq_eq_false_iff_ne]
    intro h
    unfold zipPathOf baseDirOf at h
    rw [hsplit, List.append_assoc] at h
    have h2 := List.append_cancel_left h
    apply hname
    rw [h2]
    exact List.mem_append.mpr (Or.inl (by decide))
  · by_contra hb
    have hb2 : ((baseDirOf jobID ++ "/".data).isPrefixOf
        (zipPathOf tenantName companyName jobID)) = true := by
      revert hb
      cases (baseDirOf jobID ++ "/".data).isPrefixOf (zipPathOf tenantName companyName jobID)
      · intro hb; exact absurd rfl hb
      · intro hb; rfl
    rw [ List.isPrefixOf_iff_prefix] at hb2
    unfold zipPathOf baseDirOf at hb2
    rw [hsplit, List.append_assoc, List.append_assoc] at hb2
    have h3 := (List.prefix_append_right_inj ("/tmp/".data : Str)).mp hb2
    apply hname
    have hsub := h3.sublist.subset
    exact hsub (List.mem_append.mpr (Or.inl (by decide)))

/-- C4: whether the job completes normally or the packaging step fails
(`zipErr` either way — the deferred `os.RemoveAll` runs on both exits), the
final state contains the produced archive, whose path lies outside the
workspace tree, and contains nothing from the workspace tree: every path
under `baseDir` — in particular every file any candidate task wrote — is
deleted. -/
theorem claim_C4_cleanup (tenantName companyName jobID : Str)
    (cands : List (Candidate × TaskEnv)) (zipErr : Bool) (hj : '/' ∉ jobID) :
    zipPathOf tenantName companyName jobID
        ∈ runJobFinalFS tenantName companyName jobID cands zipErr
    ∧ (∀ p, underDir (baseDirOf jobID) p = true →
        p ∉ runJobFinalFS tenantName companyName jobID cands zipErr)
    ∧ (∀ p ∈ taskFiles cands jobID,
        p ∉ runJobFinalFS tenantName companyName jobID cands zipErr) := by
  have hzip := zipPath_not_under tenantName companyName jobID hj
  have hfinal : runJobFinalFS tenantName companyName jobID cands zipErr
      = removeAll (taskFiles cands jobID ++ [zipPathOf tenantName companyName jobID])
          (baseDirOf jobID) := by
    unfold runJobFinalFS
    cases zipErr <;> rfl
  have hgone : ∀ p, underDir (baseDirOf jobID) p = true →
      p ∉ runJobFinalFS tenantName companyName jobID cands zipErr := by
    intro p hup hmem
    rw [hfinal] at hmem
    unfold removeAll at hmem
    have h2 := (List.mem_filter.mp hmem).2
    rw [hup] at h2
    exact absurd h2 (by decide)
  refine ⟨?_, hgone, ?_⟩
  · rw [hfinal]
    unfold removeAll
    rw [List.mem_filter]
    refine ⟨List.mem_append.mpr (Or.inr (by simp)), ?_⟩
    rw [hzip]
    decide
  · intro p hp
    exact hgone p (taskFiles_under cands jobID p hp)

/-- Witness for C4: one successful candidate, packaging fails; the archive
file survives, the candidate's factsheet (a workspace file) does not. -/
theorem claim_C4_witness :
    '/' ∉ "j1".data
    ∧ zipPathOf "t".data "c".data "j1".data
        ∈ runJobFinalFS "t".data "c".data "j1".data [(sampleCandidateA, envAllOk)] true
    ∧ factsheetPath (factsheetDirOf "j1".data) sampleCandidateA.email
        ∉ runJobFinalFS "t".data "c".data "j1".data [(sampleCandidateA, envAllOk)] true :=
  have h := claim_C4_cleanup "t".data "c".data "j1".data
    [(sampleCandidateA, envAllOk)] true (by decide)
  ⟨by decide, h.1, h.2.2 _ (by decide)⟩
